import Mathlib

/-!
# Behaviour tree: a shallow embedding of `bt::node_i::tick`

Sources embedded here:

* `src/bt/behaviour_tree.hpp` : `status`, `node_i`, `node_ptr`, `node_collection`
  and the seven node classes (`action::always_succeed`, `action::always_fail`,
  `action::functor`, `composite::selector`, `composite::sequence`,
  `decorator::condition`, `decorator::inverter`);
* `src/behaviour_tree.cpp` : the seven `tick` member functions;
* `test/main.cpp` : the reference tree and its two ticks.

Modelling decisions.

* Everything a callable can read or write (captured references, captured
  mutable values) is the *external state*, a value of an arbitrary type `σ`.
  A `std::function<status()>` is a function `σ → status × σ`, a
  `std::function<bool()>` a function `σ → Bool × σ`: the value returned and the
  state left behind.  In `node_i` callables are total functions.
* A `node_ptr` is an owning pointer to a node; the trees of `node_i` are
  built from pointers that own a node.  The class of the node is the
  constructor of `node_i`, and virtual dispatch of `tick` is the `match` in
  `tick`.
* `tick` takes the state before the call and returns the status together with
  the state after the call.  The range-`for` loops of `selector::tick` and
  `sequence::tick` are the recursive functions `selector_tick` and
  `sequence_tick` over the children that remain to be visited.
* `node_object` and `tick_object` embed the same code with the state that the
  callables hold kept inside the node, and with the object a call leaves
  behind returned, for the properties that speak of the tree after a call.
  `stateless` maps a tree of `node_i` to its object, and
  `tick_object (stateless n) s = (tick n s, stateless n)`.
* `unique_ptr` and `ptr_tick` embed the same code over handles that may be
  null and callables that may not return, for the properties that speak of
  construction and of the outcome of a call.  `own` maps a tree of `node_i`
  to its handle, and `ptr_tick (own n) s = Except.ok (tick n s)`.
-/

namespace bt

/-! ## Data model (`behaviour_tree.hpp`) -/

/-- The enumeration `bt::status`. -/
inductive status where
  | success
  | running
  | fail
  deriving DecidableEq, Repr, Inhabited

/-- The nodes of a tree: one constructor for each class deriving from
`bt::node_i`, carrying the data members of that class (`_func`, `_children`,
`_predicate` and `_child`). -/
inductive node_i (σ : Type) where
  | always_succeed : node_i σ
  | always_fail : node_i σ
  | functor (func : σ → status × σ) : node_i σ
  | selector (children : List (node_i σ)) : node_i σ
  | sequence (children : List (node_i σ)) : node_i σ
  | condition (predicate : σ → Bool × σ) (child : node_i σ) : node_i σ
  | inverter (child : node_i σ) : node_i σ

/-- The alias `bt::node_ptr`, an owning handle of a node. -/
abbrev node_ptr (σ : Type) : Type := node_i σ

/-- The alias `bt::node_collection`, the ordered child list of a composite. -/
abbrev node_collection (σ : Type) : Type := List (node_ptr σ)

/-! ## `tick` (`behaviour_tree.cpp`) -/

mutual
/-- The virtual member function `node_i::tick`, one branch for each override in
`behaviour_tree.cpp`. -/
def tick {σ : Type} : node_i σ → σ → status × σ
  | .always_succeed, s => (status.success, s)
  | .always_fail, s => (status.fail, s)
  | .functor func, s => func s
  | .selector children, s => selector_tick children s
  | .sequence children, s => sequence_tick children s
  | .condition predicate child, s =>
      let p := predicate s
      if p.1 = true then tick child p.2 else (status.fail, p.2)
  | .inverter child, s =>
      let ret := tick child s
      if ret.1 = status.success then (status.fail, ret.2)
      else if ret.1 = status.fail then (status.success, ret.2)
      else (status.running, ret.2)
/-- The loop of `composite::selector::tick` over the children still to visit:
a child returning `fail` lets the loop continue, any other result is returned;
after the last child the function returns `fail`. -/
def selector_tick {σ : Type} : List (node_i σ) → σ → status × σ
  | [], s => (status.fail, s)
  | node :: rest, s =>
      let ret := tick node s
      if ret.1 = status.fail then selector_tick rest ret.2 else ret
/-- The loop of `composite::sequence::tick` over the children still to visit:
a child returning `success` lets the loop continue, any other result is
returned; after the last child the function returns `success`. -/
def sequence_tick {σ : Type} : List (node_i σ) → σ → status × σ
  | [], s => (status.success, s)
  | node :: rest, s =>
      let ret := tick node s
      if ret.1 = status.success then sequence_tick rest ret.2 else ret
end

/-! ## Vocabulary of the properties -/

/-- The state reached from `s` by ticking every node of the list once, in list
order, each in the state left by the one before it. -/
def run_children {σ : Type} (cs : List (node_i σ)) (s : σ) : σ :=
  cs.foldl (fun st c => (tick c st).2) s

mutual
/-- Every functor callable and every condition predicate of the tree returns
the external state it was called in, whatever that state is. -/
def side_effect_free {σ : Type} : node_i σ → Prop
  | .always_succeed => True
  | .always_fail => True
  | .functor func => ∀ s, (func s).2 = s
  | .selector children => all_side_effect_free children
  | .sequence children => all_side_effect_free children
  | .condition predicate child => (∀ s, (predicate s).2 = s) ∧ side_effect_free child
  | .inverter child => side_effect_free child
/-- Every tree of the list is `side_effect_free`. -/
def all_side_effect_free {σ : Type} : List (node_i σ) → Prop
  | [] => True
  | node :: rest => side_effect_free node ∧ all_side_effect_free rest
end

/-! ## The reference tree (`test/main.cpp`)

The external state of `main` is its local variable `bool success`, which the
predicate of the condition captures by reference. -/

/-- The tree `root` built in `main`. -/
def root : node_ptr Bool :=
  node_i.selector
    [ node_i.always_fail,
      node_i.inverter node_i.always_succeed,
      node_i.functor (fun success => (status.fail, success)),
      node_i.condition (fun success => (success, success)) node_i.always_succeed ]

/-- The body of `main`: the two ticks of `root` and the two assertions.  The
result is `none` when an assertion fails and the pair
`(should_be_fail, should_be_success)` when both hold. -/
def main : Option (status × status) :=
  let success : Bool := false
  let should_be_fail := tick root success
  if should_be_fail.1 = status.fail then
    let success : Bool := true
    let should_be_success := tick root success
    if should_be_success.1 = status.success then
      some (should_be_fail.1, should_be_success.1)
    else none
  else none

/-! ## The Boolean reading of a status -/

/-- The map `success ↦ true`, `fail ↦ false`.  `running` has no Boolean
reading; it is sent to `false` here and is excluded wherever the map is used. -/
def to_bool : status → Bool
  | status.success => true
  | status.running => false
  | status.fail => false

/-- Boolean OR of the results the children give when each is ticked in `s`. -/
def boolean_or {σ : Type} (cs : List (node_i σ)) (s : σ) : Bool :=
  (cs.map (fun c => to_bool (tick c s).1)).or

/-- Boolean AND of the results the children give when each is ticked in `s`. -/
def boolean_and {σ : Type} (cs : List (node_i σ)) (s : σ) : Bool :=
  (cs.map (fun c => to_bool (tick c s).1)).and

/-! ## `tick` on the node objects

`tick` is a non-const member function, and a node object holds state of its
own: the target of a `std::function` member keeps the values it captured by
copy, and a call of the target may change them (the call operator of a
`mutable` lambda).  In `node_i` that state is counted with the external state.
Here it is kept where the program keeps it, inside the node: `node_object` is a
node with the state its callables hold, and `tick_object` is `tick` returning,
next to the status and the external state, the object the call leaves behind.

What a `tick` body does to its object is read off the source:

* `functor::tick` evaluates `_func()`: the target of `_func` is left in the
  state the call gave it;
* `condition::tick` evaluates `_predicate()`, which leaves the target of
  `_predicate` in a new state, and then, when the predicate held,
  `_child->tick()`, which leaves the child as its own `tick` leaves it;
* `inverter::tick` evaluates `_child->tick()`;
* the loops of `selector::tick` and `sequence::tick` bind each element of
  `_children` by reference (`node_ptr& node`) and evaluate `node->tick()`: the
  elements visited are left as their own `tick` leaves them, the elements not
  visited are not touched. -/

/-- A node object: the data members of its class, where a `std::function`
member is the pair of the state its target holds (`captured`, of type `κ`) and
the code of the target, which receives that state and the external state and
returns its result, the external state and the state it now holds. -/
inductive node_object (κ σ : Type) where
  | always_succeed : node_object κ σ
  | always_fail : node_object κ σ
  | functor (captured : κ) (func : κ → σ → (status × σ) × κ) : node_object κ σ
  | selector (children : List (node_object κ σ)) : node_object κ σ
  | sequence (children : List (node_object κ σ)) : node_object κ σ
  | condition (captured : κ) (predicate : κ → σ → (Bool × σ) × κ)
      (child : node_object κ σ) : node_object κ σ
  | inverter (child : node_object κ σ) : node_object κ σ

/-- The structure of a tree: the class of every node, the child list of every
composite with its members in order, the child and the code of the predicate of
every condition, the child of every inverter and the code of the callable of
every functor.  It is a node object without the state its callables hold. -/
inductive node_structure (κ σ : Type) where
  | always_succeed : node_structure κ σ
  | always_fail : node_structure κ σ
  | functor (func : κ → σ → (status × σ) × κ) : node_structure κ σ
  | selector (children : List (node_structure κ σ)) : node_structure κ σ
  | sequence (children : List (node_structure κ σ)) : node_structure κ σ
  | condition (predicate : κ → σ → (Bool × σ) × κ)
      (child : node_structure κ σ) : node_structure κ σ
  | inverter (child : node_structure κ σ) : node_structure κ σ

mutual
/-- The structure of a node object. -/
def structure_of {κ σ : Type} : node_object κ σ → node_structure κ σ
  | .always_succeed => node_structure.always_succeed
  | .always_fail => node_structure.always_fail
  | .functor _ func => node_structure.functor func
  | .selector children => node_structure.selector (structure_of_all children)
  | .sequence children => node_structure.sequence (structure_of_all children)
  | .condition _ predicate child => node_structure.condition predicate (structure_of child)
  | .inverter child => node_structure.inverter (structure_of child)
/-- The structures of the node objects of a list, in order. -/
def structure_of_all {κ σ : Type} : List (node_object κ σ) → List (node_structure κ σ)
  | [] => []
  | node :: rest => structure_of node :: structure_of_all rest
end

mutual
/-- The member function `node_i::tick` on a node object: the status and the
external state after the call, and the object after the call. -/
def tick_object {κ σ : Type} : node_object κ σ → σ → (status × σ) × node_object κ σ
  | .always_succeed, s => ((status.success, s), node_object.always_succeed)
  | .always_fail, s => ((status.fail, s), node_object.always_fail)
  | .functor captured func, s =>
      let r := func captured s
      (r.1, node_object.functor r.2 func)
  | .selector children, s =>
      let r := selector_tick_object children s
      (r.1, node_object.selector r.2)
  | .sequence children, s =>
      let r := sequence_tick_object children s
      (r.1, node_object.sequence r.2)
  | .condition captured predicate child, s =>
      let p := predicate captured s
      if p.1.1 = true then
        let r := tick_object child p.1.2
        (r.1, node_object.condition p.2 predicate r.2)
      else ((status.fail, p.1.2), node_object.condition p.2 predicate child)
  | .inverter child, s =>
      let r := tick_object child s
      let ret := r.1
      if ret.1 = status.success then ((status.fail, ret.2), node_object.inverter r.2)
      else if ret.1 = status.fail then ((status.success, ret.2), node_object.inverter r.2)
      else ((status.running, ret.2), node_object.inverter r.2)
/-- The loop of `selector::tick` over the elements of `_children` still to
visit, returning those elements as the loop leaves them. -/
def selector_tick_object {κ σ : Type} :
    List (node_object κ σ) → σ → (status × σ) × List (node_object κ σ)
  | [], s => ((status.fail, s), [])
  | node :: rest, s =>
      let r := tick_object node s
      let ret := r.1
      if ret.1 = status.fail then
        let q := selector_tick_object rest ret.2
        (q.1, r.2 :: q.2)
      else (ret, r.2 :: rest)
/-- The loop of `sequence::tick` over the elements of `_children` still to
visit, returning those elements as the loop leaves them. -/
def sequence_tick_object {κ σ : Type} :
    List (node_object κ σ) → σ → (status × σ) × List (node_object κ σ)
  | [], s => ((status.success, s), [])
  | node :: rest, s =>
      let r := tick_object node s
      let ret := r.1
      if ret.1 = status.success then
        let q := sequence_tick_object rest ret.2
        (q.1, r.2 :: q.2)
      else (ret, r.2 :: rest)
end

/-- One evaluation cycle on a pair of external state and tree: the tree is
ticked, and the pair of the external state and the tree after the call is
returned. -/
def cycle {κ σ : Type} (x : σ × node_object κ σ) : σ × node_object κ σ :=
  ((tick_object x.2 x.1).1.2, (tick_object x.2 x.1).2)

mutual
/-- The node object of a tree of `node_i`: its callables hold no state of
their own (`κ` is `Unit`). -/
def stateless {σ : Type} : node_i σ → node_object Unit σ
  | .always_succeed => node_object.always_succeed
  | .always_fail => node_object.always_fail
  | .functor func => node_object.functor () (fun _ s => (func s, ()))
  | .selector children => node_object.selector (stateless_all children)
  | .sequence children => node_object.sequence (stateless_all children)
  | .condition predicate child =>
      node_object.condition () (fun _ s => (predicate s, ())) (stateless child)
  | .inverter child => node_object.inverter (stateless child)
/-- The node objects of the trees of a list, in order. -/
def stateless_all {σ : Type} : List (node_i σ) → List (node_object Unit σ)
  | [] => []
  | node :: rest => stateless node :: stateless_all rest
end

/-- A functor that counts its calls in the state it holds: it returns
`running` for the first three calls and `success` from then on, and leaves the
external state alone. -/
def counting_functor {σ : Type} (k : Nat) : node_object Nat σ :=
  node_object.functor k
    (fun k s => ((if k < 3 then status.running else status.success, s), k + 1))

/-! ## Handles that may be null, callables that may not return

The types of `behaviour_tree.hpp` allow more than the trees of `node_i`: a
`node_ptr` is a `std::unique_ptr<node_i>` and may be null, and a call of a
`std::function` may throw (an empty one always does) instead of returning.
This section embeds `tick` once more over these inputs.  No constructor and no
`make` of the library inspects the handle it is given. -/

/-- A `std::unique_ptr<node_i>`: `null`, or the owner of a node of one of the
seven classes, whose own handles are of this type again.  A callable returns
`none` in a state in which its call does not return a value. -/
inductive unique_ptr (σ : Type) where
  | null : unique_ptr σ
  | always_succeed : unique_ptr σ
  | always_fail : unique_ptr σ
  | functor (func : σ → Option (status × σ)) : unique_ptr σ
  | selector (children : List (unique_ptr σ)) : unique_ptr σ
  | sequence (children : List (unique_ptr σ)) : unique_ptr σ
  | condition (predicate : σ → Option (Bool × σ)) (child : unique_ptr σ) : unique_ptr σ
  | inverter (child : unique_ptr σ) : unique_ptr σ

/-- The ways in which a call `node->tick()` ends without a status. -/
inductive fault where
  | null_dereference
  | callable_did_not_return
  deriving DecidableEq, Repr

/-- The factory `decorator::inverter::make`: the new inverter holds the handle
it was given. -/
def decorator.inverter.make {σ : Type} (child : unique_ptr σ) : unique_ptr σ :=
  unique_ptr.inverter child

/-- The factory `decorator::condition::make`: the new condition holds the
predicate and the handle it was given. -/
def decorator.condition.make {σ : Type} (predicate : σ → Option (Bool × σ))
    (child : unique_ptr σ) : unique_ptr σ :=
  unique_ptr.condition predicate child

mutual
/-- The call `node->tick()` through a handle.  Through a null handle it is a
null dereference; a callable that does not return ends the whole call. -/
def ptr_tick {σ : Type} : unique_ptr σ → σ → Except fault (status × σ)
  | .null, _ => Except.error fault.null_dereference
  | .always_succeed, s => Except.ok (status.success, s)
  | .always_fail, s => Except.ok (status.fail, s)
  | .functor func, s =>
      match func s with
      | none => Except.error fault.callable_did_not_return
      | some ret => Except.ok ret
  | .selector children, s => ptr_selector_tick children s
  | .sequence children, s => ptr_sequence_tick children s
  | .condition predicate child, s =>
      match predicate s with
      | none => Except.error fault.callable_did_not_return
      | some p => if p.1 = true then ptr_tick child p.2 else Except.ok (status.fail, p.2)
  | .inverter child, s =>
      match ptr_tick child s with
      | Except.error e => Except.error e
      | Except.ok ret =>
          if ret.1 = status.success then Except.ok (status.fail, ret.2)
          else if ret.1 = status.fail then Except.ok (status.success, ret.2)
          else Except.ok (status.running, ret.2)
/-- The loop of `composite::selector::tick` over handles. -/
def ptr_selector_tick {σ : Type} : List (unique_ptr σ) → σ → Except fault (status × σ)
  | [], s => Except.ok (status.fail, s)
  | node :: rest, s =>
      match ptr_tick node s with
      | Except.error e => Except.error e
      | Except.ok ret => if ret.1 = status.fail then ptr_selector_tick rest ret.2 else Except.ok ret
/-- The loop of `composite::sequence::tick` over handles. -/
def ptr_sequence_tick {σ : Type} : List (unique_ptr σ) → σ → Except fault (status × σ)
  | [], s => Except.ok (status.success, s)
  | node :: rest, s =>
      match ptr_tick node s with
      | Except.error e => Except.error e
      | Except.ok ret =>
          if ret.1 = status.success then ptr_sequence_tick rest ret.2 else Except.ok ret
end

mutual
/-- No handle of the tree is null: the tree is built from the seven node kinds. -/
def no_null {σ : Type} : unique_ptr σ → Prop
  | .null => False
  | .always_succeed => True
  | .always_fail => True
  | .functor _ => True
  | .selector children => all_no_null children
  | .sequence children => all_no_null children
  | .condition _ child => no_null child
  | .inverter child => no_null child
/-- No handle of any tree of the list is null. -/
def all_no_null {σ : Type} : List (unique_ptr σ) → Prop
  | [] => True
  | node :: rest => no_null node ∧ all_no_null rest
end

mutual
/-- Every functor callable and every condition predicate of the tree returns a
value in every state. -/
def callables_return {σ : Type} : unique_ptr σ → Prop
  | .null => True
  | .always_succeed => True
  | .always_fail => True
  | .functor func => ∀ s, ∃ ret, func s = some ret
  | .selector children => all_callables_return children
  | .sequence children => all_callables_return children
  | .condition predicate child => (∀ s, ∃ p, predicate s = some p) ∧ callables_return child
  | .inverter child => callables_return child
/-- Every tree of the list satisfies `callables_return`. -/
def all_callables_return {σ : Type} : List (unique_ptr σ) → Prop
  | [] => True
  | node :: rest => callables_return node ∧ all_callables_return rest
end

mutual
/-- The handle owning a tree of `node_i`; its callables always return. -/
def own {σ : Type} : node_i σ → unique_ptr σ
  | .always_succeed => unique_ptr.always_succeed
  | .always_fail => unique_ptr.always_fail
  | .functor func => unique_ptr.functor (fun s => some (func s))
  | .selector children => unique_ptr.selector (own_all children)
  | .sequence children => unique_ptr.sequence (own_all children)
  | .condition predicate child =>
      unique_ptr.condition (fun s => some (predicate s)) (own child)
  | .inverter child => unique_ptr.inverter (own child)
/-- The handles owning the trees of a list, in order. -/
def own_all {σ : Type} : List (node_i σ) → List (unique_ptr σ)
  | [] => []
  | node :: rest => own node :: own_all rest
end

/-! ## Unfolding lemmas -/

section unfolding

variable {σ : Type}

theorem tick_selector (cs : List (node_i σ)) (s : σ) :
    tick (node_i.selector cs) s = selector_tick cs s := by
  simp [tick]

theorem tick_sequence (cs : List (node_i σ)) (s : σ) :
    tick (node_i.sequence cs) s = sequence_tick cs s := by
  simp [tick]

theorem selector_tick_nil (s : σ) :
    selector_tick ([] : List (node_i σ)) s = (status.fail, s) := by
  simp [selector_tick]

theorem selector_tick_cons (c : node_i σ) (cs : List (node_i σ)) (s : σ) :
    selector_tick (c :: cs) s =
      if (tick c s).1 = status.fail then selector_tick cs (tick c s).2 else tick c s := by
  simp [selector_tick]

theorem sequence_tick_nil (s : σ) :
    sequence_tick ([] : List (node_i σ)) s = (status.success, s) := by
  simp [sequence_tick]

theorem sequence_tick_cons (c : node_i σ) (cs : List (node_i σ)) (s : σ) :
    sequence_tick (c :: cs) s =
      if (tick c s).1 = status.success then sequence_tick cs (tick c s).2 else tick c s := by
  simp [sequence_tick]

theorem run_children_nil (s : σ) : run_children ([] : List (node_i σ)) s = s := rfl

theorem run_children_cons (c : node_i σ) (cs : List (node_i σ)) (s : σ) :
    run_children (c :: cs) s = run_children cs (tick c s).2 := rfl

theorem run_children_append (xs ys : List (node_i σ)) (s : σ) :
    run_children (xs ++ ys) s = run_children ys (run_children xs s) := by
  simp [run_children, List.foldl_append]

/-- Ticking the first `k + 1` children is ticking the first `k` and then child `k`. -/
theorem run_children_take_succ (cs : List (node_i σ)) (s : σ) (k : Nat) (hk : k < cs.length) :
    run_children (cs.take (k + 1)) s = (tick cs[k] (run_children (cs.take k) s)).2 := by
  rw [List.take_succ, run_children_append]
  simp [List.getElem?_eq_getElem hk, run_children]

end unfolding

/-! ## The loops of the composites -/

section composites

variable {σ : Type}

/-- The loop of the selector either stops at the first child `k` whose result
is not `fail`, returning that child's result, or runs through all children,
each returning `fail`, and returns `fail` in the state they left. -/
theorem selector_tick_cases (cs : List (node_i σ)) : ∀ s : σ,
    (∃ k, ∃ hk : k < cs.length,
        (∀ j, ∀ hj : j < k, (tick cs[j] (run_children (cs.take j) s)).1 = status.fail) ∧
        (tick cs[k] (run_children (cs.take k) s)).1 ≠ status.fail ∧
        selector_tick cs s = tick cs[k] (run_children (cs.take k) s))
    ∨ ((∀ j, ∀ hj : j < cs.length,
          (tick cs[j] (run_children (cs.take j) s)).1 = status.fail) ∧
        selector_tick cs s = (status.fail, run_children cs s)) := by
  induction cs with
  | nil =>
    intro s
    right
    exact ⟨fun j hj => absurd hj (Nat.not_lt_zero j), by simp [selector_tick_nil, run_children_nil]⟩
  | cons c cs ih =>
    intro s
    by_cases h : (tick c s).1 = status.fail
    · rcases ih (tick c s).2 with ⟨k, hk, hpre, hne, heq⟩ | ⟨hall, heq⟩
      · left
        refine ⟨k + 1, by simpa using hk, ?_, ?_, ?_⟩
        · intro j hj
          cases j with
          | zero => simpa [run_children_nil] using h
          | succ j => simpa [run_children_cons] using hpre j (by omega)
        · simpa [run_children_cons] using hne
        · simpa [selector_tick_cons, h, run_children_cons] using heq
      · right
        refine ⟨?_, ?_⟩
        · intro j hj
          cases j with
          | zero => simpa [run_children_nil] using h
          | succ j => simpa [run_children_cons] using hall j (by simpa using hj)
        · simpa [selector_tick_cons, h, run_children_cons] using heq
    · left
      refine ⟨0, by simp, ?_, ?_, ?_⟩
      · intro j hj
        exact absurd hj (Nat.not_lt_zero j)
      · simpa [run_children_nil] using h
      · simp [selector_tick_cons, h, run_children_nil]

/-- The loop of the sequence either stops at the first child `k` whose result
is not `success`, returning that child's result, or runs through all children,
each returning `success`, and returns `success` in the state they left. -/
theorem sequence_tick_cases (cs : List (node_i σ)) : ∀ s : σ,
    (∃ k, ∃ hk : k < cs.length,
        (∀ j, ∀ hj : j < k, (tick cs[j] (run_children (cs.take j) s)).1 = status.success) ∧
        (tick cs[k] (run_children (cs.take k) s)).1 ≠ status.success ∧
        sequence_tick cs s = tick cs[k] (run_children (cs.take k) s))
    ∨ ((∀ j, ∀ hj : j < cs.length,
          (tick cs[j] (run_children (cs.take j) s)).1 = status.success) ∧
        sequence_tick cs s = (status.success, run_children cs s)) := by
  induction cs with
  | nil =>
    intro s
    right
    exact ⟨fun j hj => absurd hj (Nat.not_lt_zero j), by simp [sequence_tick_nil, run_children_nil]⟩
  | cons c cs ih =>
    intro s
    by_cases h : (tick c s).1 = status.success
    · rcases ih (tick c s).2 with ⟨k, hk, hpre, hne, heq⟩ | ⟨hall, heq⟩
      · left
        refine ⟨k + 1, by simpa using hk, ?_, ?_, ?_⟩
        · intro j hj
          cases j with
          | zero => simpa [run_children_nil] using h
          | succ j => simpa [run_children_cons] using hpre j (by omega)
        · simpa [run_children_cons] using hne
        · simpa [sequence_tick_cons, h, run_children_cons] using heq
      · right
        refine ⟨?_, ?_⟩
        · intro j hj
          cases j with
          | zero => simpa [run_children_nil] using h
          | succ j => simpa [run_children_cons] using hall j (by simpa using hj)
        · simpa [sequence_tick_cons, h, run_children_cons] using heq
    · left
      refine ⟨0, by simp, ?_, ?_, ?_⟩
      · intro j hj
        exact absurd hj (Nat.not_lt_zero j)
      · simpa [run_children_nil] using h
      · simp [sequence_tick_cons, h, run_children_nil]

end composites

/-! ## Trees without side effects -/

section pure_trees

variable {σ : Type}

mutual
/-- A tick of a side-effect-free tree returns the state it started in. -/
theorem tick_state_of_side_effect_free :
    ∀ (n : node_i σ), side_effect_free n → ∀ s : σ, (tick n s).2 = s
  | .always_succeed, _, s => by simp [tick]
  | .always_fail, _, s => by simp [tick]
  | .functor func, h, s => by simpa [tick] using h s
  | .selector children, h, s => by
      simpa [tick] using selector_tick_state_of_side_effect_free children h s
  | .sequence children, h, s => by
      simpa [tick] using sequence_tick_state_of_side_effect_free children h s
  | .condition predicate child, h, s => by
      have hp := h.1 s
      have hc := tick_state_of_side_effect_free child h.2 (predicate s).2
      by_cases hb : (predicate s).1 = true
      · simp only [tick, hb, if_true]
        rw [hc, hp]
      · simp only [tick, hb, if_false]
        exact hp
  | .inverter child, h, s => by
      have hc := tick_state_of_side_effect_free child h s
      simp only [tick]
      split_ifs <;> exact hc
theorem selector_tick_state_of_side_effect_free :
    ∀ (cs : List (node_i σ)), all_side_effect_free cs → ∀ s : σ, (selector_tick cs s).2 = s
  | [], _, s => by simp [selector_tick]
  | c :: cs, h, s => by
      have hc := tick_state_of_side_effect_free c h.1 s
      rw [selector_tick_cons]
      split_ifs
      · rw [hc]
        exact selector_tick_state_of_side_effect_free cs h.2 s
      · exact hc
theorem sequence_tick_state_of_side_effect_free :
    ∀ (cs : List (node_i σ)), all_side_effect_free cs → ∀ s : σ, (sequence_tick cs s).2 = s
  | [], _, s => by simp [sequence_tick]
  | c :: cs, h, s => by
      have hc := tick_state_of_side_effect_free c h.1 s
      rw [sequence_tick_cons]
      split_ifs
      · rw [hc]
        exact sequence_tick_state_of_side_effect_free cs h.2 s
      · exact hc
end

/-- The side-effect-free reference tree of `test/main.cpp`. -/
theorem root_side_effect_free : side_effect_free root := by
  simp [root, side_effect_free, all_side_effect_free]

end pure_trees

end bt

namespace bt

/-! ## Selector and sequence: the status returned and the children ticked -/

section claims_composites

variable {σ : Type}

/-- C1: a tick of a selector returns the result of the first child, in
construction order, whose result is not `fail`; it returns `fail` when every
child returns `fail`, and in particular when there is no child.  Child `j` is
ticked in the state left by the children before it. -/
theorem selector_returns_first_non_fail (cs : node_collection σ) (s : σ) :
    ((∃ k, ∃ hk : k < cs.length,
        (∀ j, ∀ hj : j < k, (tick cs[j] (run_children (cs.take j) s)).1 = status.fail) ∧
        (tick cs[k] (run_children (cs.take k) s)).1 ≠ status.fail ∧
        (tick (node_i.selector cs) s).1 = (tick cs[k] (run_children (cs.take k) s)).1)
      ∨ ((∀ j, ∀ hj : j < cs.length,
            (tick cs[j] (run_children (cs.take j) s)).1 = status.fail) ∧
          (tick (node_i.selector cs) s).1 = status.fail))
    ∧ (tick (node_i.selector ([] : node_collection σ)) s).1 = status.fail := by
  refine ⟨?_, by simp [tick_selector, selector_tick_nil]⟩
  rcases selector_tick_cases cs s with ⟨k, hk, hpre, hne, heq⟩ | ⟨hall, heq⟩
  · exact Or.inl ⟨k, hk, hpre, hne, by rw [tick_selector, heq]⟩
  · exact Or.inr ⟨hall, by rw [tick_selector, heq]⟩

/-- C2: a tick of a sequence returns the result of the first child, in
construction order, whose result is not `success`; it returns `success` when
every child returns `success`, and in particular when there is no child.
Child `j` is ticked in the state left by the children before it. -/
theorem sequence_returns_first_non_success (cs : node_collection σ) (s : σ) :
    ((∃ k, ∃ hk : k < cs.length,
        (∀ j, ∀ hj : j < k, (tick cs[j] (run_children (cs.take j) s)).1 = status.success) ∧
        (tick cs[k] (run_children (cs.take k) s)).1 ≠ status.success ∧
        (tick (node_i.sequence cs) s).1 = (tick cs[k] (run_children (cs.take k) s)).1)
      ∨ ((∀ j, ∀ hj : j < cs.length,
            (tick cs[j] (run_children (cs.take j) s)).1 = status.success) ∧
          (tick (node_i.sequence cs) s).1 = status.success))
    ∧ (tick (node_i.sequence ([] : node_collection σ)) s).1 = status.success := by
  refine ⟨?_, by simp [tick_sequence, sequence_tick_nil]⟩
  rcases sequence_tick_cases cs s with ⟨k, hk, hpre, hne, heq⟩ | ⟨hall, heq⟩
  · exact Or.inl ⟨k, hk, hpre, hne, by rw [tick_sequence, heq]⟩
  · exact Or.inr ⟨hall, by rw [tick_sequence, heq]⟩

/-- C3: the state after a tick of a selector is the state reached by ticking,
once each and in construction order, the children up to and including the
first one whose result is not `fail` (all of them when every child returns
`fail`); the children after that one contribute nothing. -/
theorem selector_ticks_up_to_first_non_fail (cs : node_collection σ) (s : σ) :
    (∃ k, ∃ hk : k < cs.length,
        (∀ j, ∀ hj : j < k, (tick cs[j] (run_children (cs.take j) s)).1 = status.fail) ∧
        (tick cs[k] (run_children (cs.take k) s)).1 ≠ status.fail ∧
        (tick (node_i.selector cs) s).2 = run_children (cs.take (k + 1)) s)
    ∨ ((∀ j, ∀ hj : j < cs.length,
          (tick cs[j] (run_children (cs.take j) s)).1 = status.fail) ∧
        (tick (node_i.selector cs) s).2 = run_children cs s) := by
  rcases selector_tick_cases cs s with ⟨k, hk, hpre, hne, heq⟩ | ⟨hall, heq⟩
  · exact Or.inl ⟨k, hk, hpre, hne, by rw [tick_selector, heq, run_children_take_succ cs s k hk]⟩
  · exact Or.inr ⟨hall, by rw [tick_selector, heq]⟩

/-- C4: the state after a tick of a sequence is the state reached by ticking,
once each and in construction order, the children up to and including the
first one whose result is not `success` (all of them when every child returns
`success`); the children after that one contribute nothing. -/
theorem sequence_ticks_up_to_first_non_success (cs : node_collection σ) (s : σ) :
    (∃ k, ∃ hk : k < cs.length,
        (∀ j, ∀ hj : j < k, (tick cs[j] (run_children (cs.take j) s)).1 = status.success) ∧
        (tick cs[k] (run_children (cs.take k) s)).1 ≠ status.success ∧
        (tick (node_i.sequence cs) s).2 = run_children (cs.take (k + 1)) s)
    ∨ ((∀ j, ∀ hj : j < cs.length,
          (tick cs[j] (run_children (cs.take j) s)).1 = status.success) ∧
        (tick (node_i.sequence cs) s).2 = run_children cs s) := by
  rcases sequence_tick_cases cs s with ⟨k, hk, hpre, hne, heq⟩ | ⟨hall, heq⟩
  · exact Or.inl ⟨k, hk, hpre, hne, by rw [tick_sequence, heq, run_children_take_succ cs s k hk]⟩
  · exact Or.inr ⟨hall, by rw [tick_sequence, heq]⟩

end claims_composites

/-! ## Decorators and the functor leaf -/

section claims_decorators

variable {σ : Type}

/-- C5: a tick of an inverter ticks its child once, leaves the state the child
left, and returns `fail` for `success`, `success` for `fail` and `running` for
`running`. -/
theorem inverter_tick_inverts (child : node_ptr σ) (s : σ) :
    tick (node_i.inverter child) s =
      (match (tick child s).1 with
        | status.success => status.fail
        | status.fail => status.success
        | status.running => status.running,
       (tick child s).2) := by
  simp only [tick]
  cases h : (tick child s).1 <;> simp

/-- C6: when the predicate of a condition evaluates to false, the tick returns
`fail` in the state left by the predicate; the child plays no part. -/
theorem condition_false_skips_child (predicate : σ → Bool × σ) (child : node_ptr σ) (s : σ)
    (h : (predicate s).1 = false) :
    tick (node_i.condition predicate child) s = (status.fail, (predicate s).2) := by
  simp [tick, h]

/-- Witness of C6 on a counter: the predicate adds one and answers false, the
child would add a hundred; after the tick the counter is one. -/
theorem condition_false_skips_child_witness :
    ((fun n : Nat => (false, n + 1)) 0).1 = false ∧
    tick (node_i.condition (fun n : Nat => (false, n + 1))
        (node_i.functor (fun n : Nat => (status.success, n + 100)))) 0 = (status.fail, 1) :=
  ⟨rfl, condition_false_skips_child (fun n : Nat => (false, n + 1))
      (node_i.functor (fun n : Nat => (status.success, n + 100))) 0 rfl⟩

/-- C7: when the predicate of a condition evaluates to true, the tick is the
tick of the child in the state left by the predicate: same status, same final
state. -/
theorem condition_true_ticks_child (predicate : σ → Bool × σ) (child : node_ptr σ) (s : σ)
    (h : (predicate s).1 = true) :
    tick (node_i.condition predicate child) s = tick child (predicate s).2 := by
  simp [tick, h]

/-- Witness of C7 on a counter: the predicate adds one and answers true, the
child returns `running` and adds a hundred. -/
theorem condition_true_ticks_child_witness :
    ((fun n : Nat => (true, n + 1)) 0).1 = true ∧
    tick (node_i.condition (fun n : Nat => (true, n + 1))
        (node_i.functor (fun n : Nat => (status.running, n + 100)))) 0 =
      tick (node_i.functor (fun n : Nat => (status.running, n + 100))) 1 :=
  ⟨rfl, condition_true_ticks_child (fun n : Nat => (true, n + 1))
      (node_i.functor (fun n : Nat => (status.running, n + 100))) 0 rfl⟩

/-- C10: a tick of a functor node is one call of its callable: the status and
the state after the tick are those the callable produced. -/
theorem functor_tick_is_call (func : σ → status × σ) (s : σ) :
    tick (node_i.functor func) s = func s := by
  simp [tick]

end claims_decorators

/-! ## The reference tree -/

/-- C8: the reference tree of `test/main.cpp` ticks to `success` when the flag
is true and to `fail` when it is false, leaving the flag as it was; ticked with
the flag false and then with the flag true, as `main` does, it returns `fail`
and then `success`, so both assertions of `main` hold. -/
theorem root_tick_follows_flag :
    (∀ flag : Bool,
        tick root flag = (if flag = true then status.success else status.fail, flag)) ∧
    (tick root false).1 = status.fail ∧
    (tick root true).1 = status.success ∧
    main = some (status.fail, status.success) := by
  decide

/-! ## Repeated ticks -/

/-- C9: a tree whose callables and predicates leave the external state
unchanged leaves it unchanged itself, and every repeated tick from the same
state returns what the first one returned. -/
theorem tick_repeatable {σ : Type} (n : node_ptr σ) (h : side_effect_free n) (s : σ) :
    (tick n s).2 = s ∧
    tick n (tick n s).2 = tick n s ∧
    ∀ m : Nat, tick n ((fun st => (tick n st).2)^[m] s) = tick n s := by
  have hs : ∀ st : σ, (tick n st).2 = st := tick_state_of_side_effect_free n h
  refine ⟨hs s, by rw [hs s], ?_⟩
  intro m
  have hm : (fun st => (tick n st).2)^[m] s = s := by
    induction m with
    | zero => rfl
    | succ m ih => rw [Function.iterate_succ_apply', ih, hs s]
  rw [hm]

/-- Witness of C9 on the reference tree with the flag set. -/
theorem tick_repeatable_witness :
    side_effect_free root ∧
    ((tick root true).2 = true ∧
      tick root (tick root true).2 = tick root true ∧
      ∀ m : Nat, tick root ((fun st => (tick root st).2)^[m] true) = tick root true) :=
  ⟨root_side_effect_free, tick_repeatable root root_side_effect_free true⟩

end bt

namespace bt

/-! ## Algebra of the composites and the inverter -/

section algebra

variable {σ : Type}

theorem tick_inverter (c : node_i σ) (s : σ) :
    tick (node_i.inverter c) s =
      if (tick c s).1 = status.success then (status.fail, (tick c s).2)
      else if (tick c s).1 = status.fail then (status.success, (tick c s).2)
      else (status.running, (tick c s).2) := by
  simp [tick]

/-- The loop of a selector over `xs ++ ys` is the loop over `xs`, followed by
the loop over `ys` when the first one ends in `fail`. -/
theorem selector_tick_append (xs ys : List (node_i σ)) : ∀ s : σ,
    selector_tick (xs ++ ys) s =
      if (selector_tick xs s).1 = status.fail then selector_tick ys (selector_tick xs s).2
      else selector_tick xs s := by
  induction xs with
  | nil => intro s; simp [selector_tick_nil]
  | cons c xs ih =>
    intro s
    rw [List.cons_append, selector_tick_cons, selector_tick_cons]
    by_cases h : (tick c s).1 = status.fail
    · simp only [h, if_true]
      exact ih (tick c s).2
    · simp [h]

/-- The loop of a sequence over `xs ++ ys` is the loop over `xs`, followed by
the loop over `ys` when the first one ends in `success`. -/
theorem sequence_tick_append (xs ys : List (node_i σ)) : ∀ s : σ,
    sequence_tick (xs ++ ys) s =
      if (sequence_tick xs s).1 = status.success then sequence_tick ys (sequence_tick xs s).2
      else sequence_tick xs s := by
  induction xs with
  | nil => intro s; simp [sequence_tick_nil]
  | cons c xs ih =>
    intro s
    rw [List.cons_append, sequence_tick_cons, sequence_tick_cons]
    by_cases h : (tick c s).1 = status.success
    · simp only [h, if_true]
      exact ih (tick c s).2
    · simp [h]

/-- The inverter of a selector is the sequence of the inverted children. -/
theorem inverter_selector (cs : List (node_i σ)) : ∀ s : σ,
    tick (node_i.inverter (node_i.selector cs)) s =
      tick (node_i.sequence (cs.map node_i.inverter)) s := by
  induction cs with
  | nil => intro s; simp [tick_inverter, tick_selector, tick_sequence, selector_tick_nil,
      sequence_tick_nil]
  | cons c cs ih =>
    intro s
    have ih1 := ih (tick c s).2
    rw [tick_inverter, tick_selector, tick_sequence] at ih1
    rw [tick_inverter, tick_selector, tick_sequence, List.map_cons, selector_tick_cons,
      sequence_tick_cons, tick_inverter]
    cases h : (tick c s).1 with
    | success => simp [h]
    | running => simp [h]
    | fail => simpa [h] using ih1

/-- The inverter of a sequence is the selector of the inverted children. -/
theorem inverter_sequence (cs : List (node_i σ)) : ∀ s : σ,
    tick (node_i.inverter (node_i.sequence cs)) s =
      tick (node_i.selector (cs.map node_i.inverter)) s := by
  induction cs with
  | nil => intro s; simp [tick_inverter, tick_selector, tick_sequence, selector_tick_nil,
      sequence_tick_nil]
  | cons c cs ih =>
    intro s
    have ih1 := ih (tick c s).2
    rw [tick_inverter, tick_selector, tick_sequence] at ih1
    rw [tick_inverter, tick_selector, tick_sequence, List.map_cons, selector_tick_cons,
      sequence_tick_cons, tick_inverter]
    cases h : (tick c s).1 with
    | success => simpa [h] using ih1
    | running => simp [h]
    | fail => simp [h]

end algebra

end bt

namespace bt

/-! ## Leaves, identities, duality and flattening -/

section claims_algebra

variable {σ : Type}

/-- C11: in every state a tick of `always_succeed` returns `success` and a tick
of `always_fail` returns `fail`, and both leave the state as it was. -/
theorem always_nodes_tick (s : σ) :
    tick (node_i.always_succeed : node_ptr σ) s = (status.success, s) ∧
    tick (node_i.always_fail : node_ptr σ) s = (status.fail, s) := by
  constructor <;> simp [tick]

/-- C15: `fail` is the identity of the selector and `success` the identity of
the sequence: an `always_fail` child inserted at any position `i` of a
selector, or an `always_succeed` child inserted at any position `i` of a
sequence, changes neither the status nor the final state; the empty selector
ticks as `always_fail` and the empty sequence as `always_succeed`. -/
theorem identity_child_is_neutral (cs : node_collection σ) (i : Nat) (s : σ) :
    tick (node_i.selector (cs.take i ++ node_i.always_fail :: cs.drop i)) s =
      tick (node_i.selector cs) s ∧
    tick (node_i.sequence (cs.take i ++ node_i.always_succeed :: cs.drop i)) s =
      tick (node_i.sequence cs) s ∧
    tick (node_i.selector ([] : node_collection σ)) s = tick node_i.always_fail s ∧
    tick (node_i.sequence ([] : node_collection σ)) s = tick node_i.always_succeed s := by
  have hsel : selector_tick (node_i.always_fail :: cs.drop i) =
      selector_tick (cs.drop i) := by
    funext st
    simp [selector_tick_cons, tick]
  have hseq : sequence_tick (node_i.always_succeed :: cs.drop i) =
      sequence_tick (cs.drop i) := by
    funext st
    simp [sequence_tick_cons, tick]
  refine ⟨?_, ?_, by simp [tick, selector_tick_nil], by simp [tick, sequence_tick_nil]⟩
  · rw [tick_selector, tick_selector, selector_tick_append, hsel, ← selector_tick_append,
      List.take_append_drop]
  · rw [tick_sequence, tick_sequence, sequence_tick_append, hseq, ← sequence_tick_append,
      List.take_append_drop]

/-- C16: in every state the tree
`Sequence(AlwaysSucceed, Selector(AlwaysFail, AlwaysSucceed))` ticks to
`success`: the first child of the inner selector fails and the second succeeds,
so the inner selector returns `success`, and the sequence, both children having
succeeded, returns `success`. -/
theorem nested_tree_succeeds (s : σ) :
    tick (node_i.always_fail : node_ptr σ) s = (status.fail, s) ∧
    tick (node_i.always_succeed : node_ptr σ) s = (status.success, s) ∧
    tick (node_i.selector [node_i.always_fail, node_i.always_succeed] : node_ptr σ) s =
      (status.success, s) ∧
    tick (node_i.sequence
        [node_i.always_succeed,
         node_i.selector [node_i.always_fail, node_i.always_succeed]] : node_ptr σ) s =
      (status.success, s) := by
  simp [tick, selector_tick, sequence_tick]

/-- C18: De Morgan duality.  The inverter of a selector ticks as the sequence
of the inverted children, and the inverter of a sequence as the selector of the
inverted children: same status, same final state. -/
theorem de_morgan (cs : node_collection σ) (s : σ) :
    tick (node_i.inverter (node_i.selector cs)) s =
      tick (node_i.sequence (cs.map node_i.inverter)) s ∧
    tick (node_i.inverter (node_i.sequence cs)) s =
      tick (node_i.selector (cs.map node_i.inverter)) s :=
  ⟨inverter_selector cs s, inverter_sequence cs s⟩

/-- C19: the inverter is an involution: the inverter of the inverter of a node
ticks as the node itself, with the same status and the same final state. -/
theorem inverter_involutive (c : node_ptr σ) (s : σ) :
    tick (node_i.inverter (node_i.inverter c)) s = tick c s := by
  rw [tick_inverter, tick_inverter]
  generalize tick c s = p
  rcases p with ⟨r, st⟩
  cases r <;> simp

/-- C20: same-kind nesting flattens.  A selector nested in a selector ticks as
the selector of the spliced child list, and likewise for sequences; a selector
or a sequence with one child ticks as that child. -/
theorem nesting_flattens (xs ys zs : node_collection σ) (c : node_ptr σ) (s : σ) :
    tick (node_i.selector (xs ++ [node_i.selector ys] ++ zs)) s =
      tick (node_i.selector (xs ++ ys ++ zs)) s ∧
    tick (node_i.sequence (xs ++ [node_i.sequence ys] ++ zs)) s =
      tick (node_i.sequence (xs ++ ys ++ zs)) s ∧
    tick (node_i.selector [c]) s = tick c s ∧
    tick (node_i.sequence [c]) s = tick c s := by
  have hsel : selector_tick (node_i.selector ys :: zs) = selector_tick (ys ++ zs) := by
    funext st
    rw [selector_tick_cons, tick_selector, selector_tick_append]
  have hseq : sequence_tick (node_i.sequence ys :: zs) = sequence_tick (ys ++ zs) := by
    funext st
    rw [sequence_tick_cons, tick_sequence, sequence_tick_append]
  refine ⟨?_, ?_, ?_, ?_⟩
  · rw [tick_selector, tick_selector, List.append_assoc, List.append_assoc,
      List.singleton_append, selector_tick_append, hsel, ← selector_tick_append]
  · rw [tick_sequence, tick_sequence, List.append_assoc, List.append_assoc,
      List.singleton_append, sequence_tick_append, hseq, ← sequence_tick_append]
  · rw [tick_selector, selector_tick_cons, selector_tick_nil]
    split_ifs with h
    · rw [← h]
    · rfl
  · rw [tick_sequence, sequence_tick_cons, sequence_tick_nil]
    split_ifs with h
    · rw [← h]
    · rfl

end claims_algebra

end bt

namespace bt

/-! ## The Boolean reading of the composites -/

section boolean

variable {σ : Type}

theorem to_bool_eq_true (r : status) : to_bool r = true ↔ r = status.success := by
  cases r <;> simp [to_bool]

theorem boolean_or_nil (s : σ) : boolean_or ([] : List (node_i σ)) s = false := rfl

theorem boolean_or_cons (c : node_i σ) (cs : List (node_i σ)) (s : σ) :
    boolean_or (c :: cs) s = (to_bool (tick c s).1 || boolean_or cs s) := rfl

theorem boolean_and_nil (s : σ) : boolean_and ([] : List (node_i σ)) s = true := rfl

theorem boolean_and_cons (c : node_i σ) (cs : List (node_i σ)) (s : σ) :
    boolean_and (c :: cs) s = (to_bool (tick c s).1 && boolean_and cs s) := rfl

theorem boolean_or_eq_true (cs : List (node_i σ)) (s : σ) :
    boolean_or cs s = true ↔ ∃ c ∈ cs, (tick c s).1 = status.success := by
  induction cs with
  | nil => simp [boolean_or_nil]
  | cons c cs ih => simp [boolean_or_cons, ih, to_bool_eq_true]

theorem boolean_and_eq_true (cs : List (node_i σ)) (s : σ) :
    boolean_and cs s = true ↔ ∀ c ∈ cs, (tick c s).1 = status.success := by
  induction cs with
  | nil => simp [boolean_and_nil]
  | cons c cs ih => simp [boolean_and_cons, ih, to_bool_eq_true]

/-- Over side-effect-free children that do not return `running` in `s`, the
loop of the selector returns `success` or `fail` according to the Boolean OR. -/
theorem selector_tick_boolean (cs : List (node_i σ)) (s : σ)
    (hfree : all_side_effect_free cs) (hnr : ∀ c ∈ cs, (tick c s).1 ≠ status.running) :
    (selector_tick cs s).1 =
      if boolean_or cs s = true then status.success else status.fail := by
  induction cs with
  | nil => simp [selector_tick_nil, boolean_or_nil]
  | cons c cs ih =>
    have hst : (tick c s).2 = s := tick_state_of_side_effect_free c hfree.1 s
    have hc : (tick c s).1 ≠ status.running := hnr c (List.mem_cons_self c cs)
    have ih1 := ih hfree.2 (fun d hd => hnr d (List.mem_cons_of_mem c hd))
    rw [selector_tick_cons, boolean_or_cons, hst]
    cases h : (tick c s).1 with
    | success => simp [to_bool, h]
    | running => exact absurd h hc
    | fail => simpa [to_bool, h] using ih1

/-- Over side-effect-free children that do not return `running` in `s`, the
loop of the sequence returns `success` or `fail` according to the Boolean AND. -/
theorem sequence_tick_boolean (cs : List (node_i σ)) (s : σ)
    (hfree : all_side_effect_free cs) (hnr : ∀ c ∈ cs, (tick c s).1 ≠ status.running) :
    (sequence_tick cs s).1 =
      if boolean_and cs s = true then status.success else status.fail := by
  induction cs with
  | nil => simp [sequence_tick_nil, boolean_and_nil]
  | cons c cs ih =>
    have hst : (tick c s).2 = s := tick_state_of_side_effect_free c hfree.1 s
    have hc : (tick c s).1 ≠ status.running := hnr c (List.mem_cons_self c cs)
    have ih1 := ih hfree.2 (fun d hd => hnr d (List.mem_cons_of_mem c hd))
    rw [sequence_tick_cons, boolean_and_cons, hst]
    cases h : (tick c s).1 with
    | success => simpa [to_bool, h] using ih1
    | running => exact absurd h hc
    | fail => simp [to_bool, h]

/-- C14: over children that are side-effect-free and never return `running`,
and under the map `success ↦ true`, `fail ↦ false`, a tick of the selector is
the Boolean OR of the children's results (`success` exactly when some child
returns `success`) and a tick of the sequence their Boolean AND (`success`
exactly when every child returns `success`); neither returns `running`. -/
theorem composites_are_boolean (cs : node_collection σ) (s : σ)
    (hfree : all_side_effect_free cs)
    (hnr : ∀ c ∈ cs, ∀ st : σ, (tick c st).1 ≠ status.running) :
    (to_bool (tick (node_i.selector cs) s).1 = boolean_or cs s ∧
      ((tick (node_i.selector cs) s).1 = status.success ↔
        ∃ c ∈ cs, (tick c s).1 = status.success) ∧
      (tick (node_i.selector cs) s).1 ≠ status.running) ∧
    (to_bool (tick (node_i.sequence cs) s).1 = boolean_and cs s ∧
      ((tick (node_i.sequence cs) s).1 = status.success ↔
        ∀ c ∈ cs, (tick c s).1 = status.success) ∧
      (tick (node_i.sequence cs) s).1 ≠ status.running) := by
  have hsel := selector_tick_boolean cs s hfree (fun c hc => hnr c hc s)
  have hseq := sequence_tick_boolean cs s hfree (fun c hc => hnr c hc s)
  rw [tick_selector, tick_sequence, hsel, hseq,
    ← boolean_or_eq_true cs s, ← boolean_and_eq_true cs s]
  refine ⟨?_, ?_⟩
  · cases boolean_or cs s <;> simp [to_bool]
  · cases boolean_and cs s <;> simp [to_bool]

/-- Witness of C14 on the children `always_fail`, `always_succeed`, with a
Boolean flag as state. -/
theorem composites_are_boolean_witness :
    all_side_effect_free
      ([node_i.always_fail, node_i.always_succeed] : node_collection Bool) ∧
    (∀ c ∈ ([node_i.always_fail, node_i.always_succeed] : node_collection Bool),
      ∀ st : Bool, (tick c st).1 ≠ status.running) ∧
    ((to_bool (tick (node_i.selector [node_i.always_fail, node_i.always_succeed]) true).1 =
        boolean_or [node_i.always_fail, node_i.always_succeed] true ∧
      ((tick (node_i.selector [node_i.always_fail, node_i.always_succeed]) true).1 =
          status.success ↔
        ∃ c ∈ ([node_i.always_fail, node_i.always_succeed] : node_collection Bool),
          (tick c true).1 = status.success) ∧
      (tick (node_i.selector [node_i.always_fail, node_i.always_succeed]) true).1 ≠
        status.running) ∧
    (to_bool (tick (node_i.sequence [node_i.always_fail, node_i.always_succeed]) true).1 =
        boolean_and [node_i.always_fail, node_i.always_succeed] true ∧
      ((tick (node_i.sequence [node_i.always_fail, node_i.always_succeed]) true).1 =
          status.success ↔
        ∀ c ∈ ([node_i.always_fail, node_i.always_succeed] : node_collection Bool),
          (tick c true).1 = status.success) ∧
      (tick (node_i.sequence [node_i.always_fail, node_i.always_succeed]) true).1 ≠
        status.running)) :=
  have hfree : all_side_effect_free
      ([node_i.always_fail, node_i.always_succeed] : node_collection Bool) := by
    simp [all_side_effect_free, side_effect_free]
  have hnr : ∀ c ∈ ([node_i.always_fail, node_i.always_succeed] : node_collection Bool),
      ∀ st : Bool, (tick c st).1 ≠ status.running := by
    intro c hc st
    simp only [List.mem_cons, List.mem_singleton, List.not_mem_nil, or_false] at hc
    rcases hc with rfl | rfl <;> simp [tick]
  ⟨hfree, hnr, composites_are_boolean [node_i.always_fail, node_i.always_succeed] true hfree hnr⟩

end boolean

end bt

namespace bt

/-! ## The tree after a tick -/

section object_state

variable {κ σ : Type}

mutual
/-- On a tree whose callables hold no state, `tick_object` returns what `tick`
returns and leaves the object as it was. -/
theorem tick_object_stateless :
    ∀ (n : node_i σ) (s : σ), tick_object (stateless n) s = (tick n s, stateless n)
  | .always_succeed, s => by simp [stateless, tick_object, tick]
  | .always_fail, s => by simp [stateless, tick_object, tick]
  | .functor func, s => by simp [stateless, tick_object, tick]
  | .selector children, s => by
      simp [stateless, tick_object, tick, selector_tick_object_stateless children s]
  | .sequence children, s => by
      simp [stateless, tick_object, tick, sequence_tick_object_stateless children s]
  | .condition predicate child, s => by
      simp only [stateless, tick_object, tick]
      rw [tick_object_stateless child (predicate s).2]
      split_ifs <;> rfl
  | .inverter child, s => by
      simp only [stateless, tick_object, tick]
      rw [tick_object_stateless child s]
      split_ifs <;> rfl
theorem selector_tick_object_stateless :
    ∀ (cs : List (node_i σ)) (s : σ),
      selector_tick_object (stateless_all cs) s = (selector_tick cs s, stateless_all cs)
  | [], s => by simp [stateless_all, selector_tick_object, selector_tick]
  | c :: cs, s => by
      simp only [stateless_all, selector_tick_object, selector_tick]
      rw [tick_object_stateless c s]
      simp only []
      rw [selector_tick_object_stateless cs (tick c s).2]
      split_ifs <;> rfl
theorem sequence_tick_object_stateless :
    ∀ (cs : List (node_i σ)) (s : σ),
      sequence_tick_object (stateless_all cs) s = (sequence_tick cs s, stateless_all cs)
  | [], s => by simp [stateless_all, sequence_tick_object, sequence_tick]
  | c :: cs, s => by
      simp only [stateless_all, sequence_tick_object, sequence_tick]
      rw [tick_object_stateless c s]
      simp only []
      rw [sequence_tick_object_stateless cs (tick c s).2]
      split_ifs <;> rfl
end

/-- A tick changes the object it is called on: the counting functor holds one
more after each call, and its fourth call is the first to return `success`. -/
theorem counting_functor_ticks (s : σ) :
    tick_object (counting_functor 0) s = ((status.running, s), counting_functor 1) ∧
    tick_object (counting_functor 1) s = ((status.running, s), counting_functor 2) ∧
    tick_object (counting_functor 2) s = ((status.running, s), counting_functor 3) ∧
    tick_object (counting_functor 3) s = ((status.success, s), counting_functor 4) ∧
    (counting_functor 1 : node_object Nat σ) ≠ counting_functor 0 ∧
    tick_object (node_object.selector [node_object.always_fail, counting_functor 0]) s =
      ((status.running, s),
        node_object.selector [node_object.always_fail, counting_functor 1]) := by
  simp [counting_functor, tick_object, selector_tick_object]

mutual
/-- The object a tick leaves behind has the structure of the object it was
called on. -/
theorem structure_of_tick_object :
    ∀ (n : node_object κ σ) (s : σ), structure_of (tick_object n s).2 = structure_of n
  | .always_succeed, s => by simp [tick_object]
  | .always_fail, s => by simp [tick_object]
  | .functor captured func, s => by simp [tick_object, structure_of]
  | .selector children, s => by
      simp only [tick_object, structure_of]
      rw [structure_of_selector_tick_object children s]
  | .sequence children, s => by
      simp only [tick_object, structure_of]
      rw [structure_of_sequence_tick_object children s]
  | .condition captured predicate child, s => by
      have hc := structure_of_tick_object child (predicate captured s).1.2
      simp only [tick_object]
      split_ifs
      · simp only [structure_of]
        rw [hc]
      · simp only [structure_of]
  | .inverter child, s => by
      have hc := structure_of_tick_object child s
      simp only [tick_object]
      split_ifs <;> simp only [structure_of] <;> rw [hc]
theorem structure_of_selector_tick_object :
    ∀ (cs : List (node_object κ σ)) (s : σ),
      structure_of_all (selector_tick_object cs s).2 = structure_of_all cs
  | [], s => by simp [selector_tick_object]
  | c :: cs, s => by
      have hc := structure_of_tick_object c s
      have hcs := structure_of_selector_tick_object cs (tick_object c s).1.2
      simp only [selector_tick_object]
      split_ifs
      · simp only [structure_of_all]
        rw [hc, hcs]
      · simp only [structure_of_all]
        rw [hc]
theorem structure_of_sequence_tick_object :
    ∀ (cs : List (node_object κ σ)) (s : σ),
      structure_of_all (sequence_tick_object cs s).2 = structure_of_all cs
  | [], s => by simp [sequence_tick_object]
  | c :: cs, s => by
      have hc := structure_of_tick_object c s
      have hcs := structure_of_sequence_tick_object cs (tick_object c s).1.2
      simp only [sequence_tick_object]
      split_ifs
      · simp only [structure_of_all]
        rw [hc, hcs]
      · simp only [structure_of_all]
        rw [hc]
end

/-- C17: a tick preserves the tree.  The object a tick leaves behind has the
structure of the object it was called on: every node has the class it had,
every composite the same children in the same order, every decorator the same
child and the same predicate, every functor the same callable; only the state
the callables hold may differ.  So after any number of evaluation cycles the
tree still has the structure it was constructed with.  On a tree whose
callables hold no state the object is left as it was, and the status and the
external state are those of `tick`. -/
theorem tick_preserves_tree (n : node_object κ σ) (s : σ) :
    structure_of (tick_object n s).2 = structure_of n ∧
    (∀ m : Nat, structure_of (cycle^[m] (s, n)).2 = structure_of n) ∧
    (∀ t : node_i σ, tick_object (stateless t) s = (tick t s, stateless t)) := by
  refine ⟨structure_of_tick_object n s, ?_, fun t => tick_object_stateless t s⟩
  intro m
  induction m with
  | zero => rfl
  | succ m ih =>
    rw [Function.iterate_succ_apply']
    simp only [cycle]
    rw [structure_of_tick_object, ih]

end object_state

end bt

namespace bt

/-! ## Ticks through handles -/

section handles

variable {σ : Type}

mutual
/-- Through the handle that owns a tree of `node_i`, `tick` returns what `tick`
returns on the tree. -/
theorem ptr_tick_own : ∀ (n : node_i σ) (s : σ), ptr_tick (own n) s = Except.ok (tick n s)
  | .always_succeed, s => by simp [own, ptr_tick, tick]
  | .always_fail, s => by simp [own, ptr_tick, tick]
  | .functor func, s => by simp [own, ptr_tick, tick]
  | .selector children, s => by
      simpa [own, ptr_tick, tick] using ptr_selector_tick_own children s
  | .sequence children, s => by
      simpa [own, ptr_tick, tick] using ptr_sequence_tick_own children s
  | .condition predicate child, s => by
      simp only [own, ptr_tick, tick]
      split_ifs
      · exact ptr_tick_own child (predicate s).2
      · rfl
  | .inverter child, s => by
      simp only [own, ptr_tick, tick]
      rw [ptr_tick_own child s]
      simp only []
      split_ifs <;> rfl
theorem ptr_selector_tick_own :
    ∀ (cs : List (node_i σ)) (s : σ),
      ptr_selector_tick (own_all cs) s = Except.ok (selector_tick cs s)
  | [], s => by simp [own_all, ptr_selector_tick, selector_tick]
  | c :: cs, s => by
      simp only [own_all, ptr_selector_tick, selector_tick]
      rw [ptr_tick_own c s]
      simp only []
      split_ifs
      · exact ptr_selector_tick_own cs (tick c s).2
      · rfl
theorem ptr_sequence_tick_own :
    ∀ (cs : List (node_i σ)) (s : σ),
      ptr_sequence_tick (own_all cs) s = Except.ok (sequence_tick cs s)
  | [], s => by simp [own_all, ptr_sequence_tick, sequence_tick]
  | c :: cs, s => by
      simp only [own_all, ptr_sequence_tick, sequence_tick]
      rw [ptr_tick_own c s]
      simp only []
      split_ifs
      · exact ptr_sequence_tick_own cs (tick c s).2
      · rfl
end

mutual
theorem no_null_own : ∀ (n : node_i σ), no_null (own n)
  | .always_succeed => by simp [own, no_null]
  | .always_fail => by simp [own, no_null]
  | .functor func => by simp [own, no_null]
  | .selector children => by simpa [own, no_null] using all_no_null_own children
  | .sequence children => by simpa [own, no_null] using all_no_null_own children
  | .condition predicate child => by simpa [own, no_null] using no_null_own child
  | .inverter child => by simpa [own, no_null] using no_null_own child
theorem all_no_null_own : ∀ (cs : List (node_i σ)), all_no_null (own_all cs)
  | [] => by simp [own_all, all_no_null]
  | c :: cs => by
      simp only [own_all, all_no_null]
      exact ⟨no_null_own c, all_no_null_own cs⟩
end

mutual
theorem callables_return_own : ∀ (n : node_i σ), callables_return (own n)
  | .always_succeed => by simp [own, callables_return]
  | .always_fail => by simp [own, callables_return]
  | .functor func => by simp [own, callables_return]
  | .selector children => by
      simpa [own, callables_return] using all_callables_return_own children
  | .sequence children => by
      simpa [own, callables_return] using all_callables_return_own children
  | .condition predicate child => by
      simpa [own, callables_return] using callables_return_own child
  | .inverter child => by simpa [own, callables_return] using callables_return_own child
theorem all_callables_return_own :
    ∀ (cs : List (node_i σ)), all_callables_return (own_all cs)
  | [] => by simp [own_all, all_callables_return]
  | c :: cs => by
      simp only [own_all, all_callables_return]
      exact ⟨callables_return_own c, all_callables_return_own cs⟩
end

end handles

end bt

namespace bt

/-! ## Null handles and callables that do not return -/

section faults

variable {σ : Type}

mutual
/-- A tick through a tree without null handles never dereferences a null
handle. -/
theorem ptr_tick_ne_null_dereference :
    ∀ (p : unique_ptr σ), no_null p → ∀ s : σ,
      ptr_tick p s ≠ Except.error fault.null_dereference
  | .null, h, _ => by simp [no_null] at h
  | .always_succeed, _, s => by simp [ptr_tick]
  | .always_fail, _, s => by simp [ptr_tick]
  | .functor func, _, s => by
      simp only [ptr_tick]
      cases func s <;> simp
  | .selector children, h, s => by
      simpa [ptr_tick] using ptr_selector_tick_ne_null_dereference children h s
  | .sequence children, h, s => by
      simpa [ptr_tick] using ptr_sequence_tick_ne_null_dereference children h s
  | .condition predicate child, h, s => by
      simp only [ptr_tick]
      cases predicate s with
      | none => simp
      | some p =>
        simp only []
        split_ifs
        · exact ptr_tick_ne_null_dereference child h p.2
        · simp
  | .inverter child, h, s => by
      have hc := ptr_tick_ne_null_dereference child h s
      simp only [ptr_tick]
      cases hr : ptr_tick child s with
      | error e =>
        rw [hr] at hc
        simpa using hc
      | ok ret =>
        simp only []
        split_ifs <;> simp
theorem ptr_selector_tick_ne_null_dereference :
    ∀ (cs : List (unique_ptr σ)), all_no_null cs → ∀ s : σ,
      ptr_selector_tick cs s ≠ Except.error fault.null_dereference
  | [], _, s => by simp [ptr_selector_tick]
  | c :: cs, h, s => by
      have hc := ptr_tick_ne_null_dereference c h.1 s
      simp only [ptr_selector_tick]
      cases hr : ptr_tick c s with
      | error e =>
        rw [hr] at hc
        simpa using hc
      | ok ret =>
        simp only []
        split_ifs
        · exact ptr_selector_tick_ne_null_dereference cs h.2 ret.2
        · simp
theorem ptr_sequence_tick_ne_null_dereference :
    ∀ (cs : List (unique_ptr σ)), all_no_null cs → ∀ s : σ,
      ptr_sequence_tick cs s ≠ Except.error fault.null_dereference
  | [], _, s => by simp [ptr_sequence_tick]
  | c :: cs, h, s => by
      have hc := ptr_tick_ne_null_dereference c h.1 s
      simp only [ptr_sequence_tick]
      cases hr : ptr_tick c s with
      | error e =>
        rw [hr] at hc
        simpa using hc
      | ok ret =>
        simp only []
        split_ifs
        · exact ptr_sequence_tick_ne_null_dereference cs h.2 ret.2
        · simp
end

mutual
/-- A tick through a tree without null handles whose callables return in every
state returns a status and a state. -/
theorem ptr_tick_returns :
    ∀ (p : unique_ptr σ), no_null p → callables_return p → ∀ s : σ,
      ∃ ret, ptr_tick p s = Except.ok ret
  | .null, h, _, _ => by simp [no_null] at h
  | .always_succeed, _, _, s => ⟨(status.success, s), by simp [ptr_tick]⟩
  | .always_fail, _, _, s => ⟨(status.fail, s), by simp [ptr_tick]⟩
  | .functor func, _, hr, s => by
      obtain ⟨ret, hret⟩ := hr s
      exact ⟨ret, by simp [ptr_tick, hret]⟩
  | .selector children, h, hr, s => by
      simpa [ptr_tick] using ptr_selector_tick_returns children h hr s
  | .sequence children, h, hr, s => by
      simpa [ptr_tick] using ptr_sequence_tick_returns children h hr s
  | .condition predicate child, h, hr, s => by
      obtain ⟨p, hp⟩ := hr.1 s
      simp only [ptr_tick, hp]
      split_ifs
      · exact ptr_tick_returns child h hr.2 p.2
      · exact ⟨_, rfl⟩
  | .inverter child, h, hr, s => by
      obtain ⟨ret, hret⟩ := ptr_tick_returns child h hr s
      simp only [ptr_tick, hret]
      split_ifs <;> exact ⟨_, rfl⟩
theorem ptr_selector_tick_returns :
    ∀ (cs : List (unique_ptr σ)), all_no_null cs → all_callables_return cs → ∀ s : σ,
      ∃ ret, ptr_selector_tick cs s = Except.ok ret
  | [], _, _, s => ⟨(status.fail, s), by simp [ptr_selector_tick]⟩
  | c :: cs, h, hr, s => by
      obtain ⟨ret, hret⟩ := ptr_tick_returns c h.1 hr.1 s
      simp only [ptr_selector_tick, hret]
      split_ifs
      · exact ptr_selector_tick_returns cs h.2 hr.2 ret.2
      · exact ⟨_, rfl⟩
theorem ptr_sequence_tick_returns :
    ∀ (cs : List (unique_ptr σ)), all_no_null cs → all_callables_return cs → ∀ s : σ,
      ∃ ret, ptr_sequence_tick cs s = Except.ok ret
  | [], _, _, s => ⟨(status.success, s), by simp [ptr_sequence_tick]⟩
  | c :: cs, h, hr, s => by
      obtain ⟨ret, hret⟩ := ptr_tick_returns c h.1 hr.1 s
      simp only [ptr_sequence_tick, hret]
      split_ifs
      · exact ptr_sequence_tick_returns cs h.2 hr.2 ret.2
      · exact ⟨_, rfl⟩
end

end faults

end bt

namespace bt

/-! ## Construction of decorators, and the outcome of a tick -/

section claims_handles

variable {σ : Type}

/-- C12, as the code has it: `make` of a decorator stores the handle it is
given; when that handle heads a tree without null handles, the decorator owns
exactly that child, has no null handle itself, and its tick never dereferences
a null handle. -/
theorem decorator_owns_given_child (predicate : σ → Option (Bool × σ))
    (child : unique_ptr σ) (h : no_null child) (s : σ) :
    decorator.inverter.make child = unique_ptr.inverter child ∧
    decorator.condition.make predicate child = unique_ptr.condition predicate child ∧
    no_null (decorator.inverter.make child) ∧
    no_null (decorator.condition.make predicate child) ∧
    ptr_tick (decorator.inverter.make child) s ≠ Except.error fault.null_dereference ∧
    ptr_tick (decorator.condition.make predicate child) s ≠
      Except.error fault.null_dereference := by
  have hi : no_null (decorator.inverter.make child) := by
    simpa [decorator.inverter.make, no_null] using h
  have hc : no_null (decorator.condition.make predicate child) := by
    simpa [decorator.condition.make, no_null] using h
  exact ⟨rfl, rfl, hi, hc, ptr_tick_ne_null_dereference _ hi s,
    ptr_tick_ne_null_dereference _ hc s⟩

/-- Witness of the amended C12: decorators made over `always_succeed`, with a
predicate that reads a Boolean flag. -/
theorem decorator_owns_given_child_witness :
    no_null (unique_ptr.always_succeed : unique_ptr Bool) ∧
    (decorator.inverter.make (unique_ptr.always_succeed : unique_ptr Bool) =
        unique_ptr.inverter unique_ptr.always_succeed ∧
      decorator.condition.make (fun flag : Bool => some (flag, flag))
          unique_ptr.always_succeed =
        unique_ptr.condition (fun flag : Bool => some (flag, flag))
          unique_ptr.always_succeed ∧
      no_null (decorator.inverter.make (unique_ptr.always_succeed : unique_ptr Bool)) ∧
      no_null (decorator.condition.make (fun flag : Bool => some (flag, flag))
        unique_ptr.always_succeed) ∧
      ptr_tick (decorator.inverter.make (unique_ptr.always_succeed : unique_ptr Bool)) true ≠
        Except.error fault.null_dereference ∧
      ptr_tick (decorator.condition.make (fun flag : Bool => some (flag, flag))
          unique_ptr.always_succeed) true ≠
        Except.error fault.null_dereference) :=
  ⟨by simp [no_null],
    decorator_owns_given_child (fun flag : Bool => some (flag, flag))
      unique_ptr.always_succeed (by simp [no_null]) true⟩

/-- C12, as stated, fails: `make` of an inverter and `make` of a condition
accept a null child.  The decorator is constructed holding the null handle, and
its tick (for the condition, when the predicate holds) dereferences it. -/
theorem decorator_make_accepts_null :
    decorator.inverter.make (unique_ptr.null : unique_ptr Bool) =
      unique_ptr.inverter unique_ptr.null ∧
    decorator.condition.make (fun flag : Bool => some (flag, flag)) unique_ptr.null =
      unique_ptr.condition (fun flag : Bool => some (flag, flag)) unique_ptr.null ∧
    ¬ no_null (decorator.inverter.make (unique_ptr.null : unique_ptr Bool)) ∧
    ¬ no_null (decorator.condition.make (fun flag : Bool => some (flag, flag))
        unique_ptr.null) ∧
    ptr_tick (decorator.inverter.make (unique_ptr.null : unique_ptr Bool)) true =
      Except.error fault.null_dereference ∧
    ptr_tick (decorator.condition.make (fun flag : Bool => some (flag, flag))
        unique_ptr.null) true =
      Except.error fault.null_dereference := by
  refine ⟨rfl, rfl, ?_, ?_, ?_, ?_⟩
  · simp [decorator.inverter.make, no_null]
  · simp [decorator.condition.make, no_null]
  · simp [decorator.inverter.make, ptr_tick]
  · simp [decorator.condition.make, ptr_tick]

/-- C13: a tick of a tree built from the seven node kinds (no null handle),
whose functor callables and condition predicates return in every state,
returns: its outcome is a status, one of `success`, `running` and `fail`,
together with a state, and never a fault. -/
theorem tick_returns_a_status (p : unique_ptr σ) (hn : no_null p)
    (hr : callables_return p) (s : σ) :
    ∃ r st, ptr_tick p s = Except.ok (r, st) ∧
      (r = status.success ∨ r = status.running ∨ r = status.fail) := by
  obtain ⟨ret, hret⟩ := ptr_tick_returns p hn hr s
  refine ⟨ret.1, ret.2, hret, ?_⟩
  cases ret.1 <;> simp

/-- Witness of C13 on the reference tree of `test/main.cpp` with the flag set. -/
theorem tick_returns_a_status_witness :
    no_null (own root) ∧ callables_return (own root) ∧
    ∃ r st, ptr_tick (own root) true = Except.ok (r, st) ∧
      (r = status.success ∨ r = status.running ∨ r = status.fail) :=
  ⟨no_null_own root, callables_return_own root,
    tick_returns_a_status (own root) (no_null_own root) (callables_return_own root) true⟩

end claims_handles

end bt
